import Mathlib

/-!
Shallow embedding of the `Broadcast` network behaviour from
cloudpeers/libp2p-broadcast (`src/lib.rs`).

Modelling conventions:
* `PeerId`, `Topic` and the payload handle (`Arc<[u8]>`) are opaque values,
  embedded as `Nat`.  Equality of payload values models equality of the
  shared `Arc` handle: `broadcast` clones the `Arc`, never the bytes.
* `FnvHashSet` is embedded as a `List Nat` used as a set: `insert` is a no-op
  when the element is present and appends otherwise, `remove` filters the
  element out.  Hash sets hold no duplicates, so on the lists the code
  actually builds the two semantics agree.
* `FnvHashMap` is embedded as an association list `List (Nat × List Nat)`:
  `insert` replaces the value at an existing key (exactly `HashMap::insert`,
  which overwrites), `remove` drops the key, `get_mut` updates in place,
  `entry(..).or_default()` followed by an insert is `mentryInsert`.
* The `VecDeque` of `NetworkBehaviourAction`s is a `List Action` with the
  front of the queue at the head; `push_back` appends.
* `on_connection_handler_event` calls `self.peers.get_mut(&peer).unwrap()`
  in its `Subscribe`/`Unsubscribe` arms; `unwrap` on `None` panics, so the
  embedding returns `Option Broadcast` with `none` for the panic.
-/

namespace BroadcastSpec

abbrev PeerId := Nat
abbrev Topic := Nat
/-- Handle to a shared immutable payload buffer (`Arc<[u8]>`); equality of
handles models pointer-equality of the shared allocation. -/
abbrev Payload := Nat

/-- The wire `Message` enum from `protocol.rs` as re-used in `lib.rs`. -/
inductive Message where
  | subscribe (t : Topic)
  | unsubscribe (t : Topic)
  | broadcast (t : Topic) (m : Payload)
deriving DecidableEq, Repr

/-- `HandlerEvent`: either a received `Message` or a send acknowledgement. -/
inductive HandlerEvent where
  | rx (m : Message)
  | tx
deriving DecidableEq, Repr

/-- `BroadcastEvent`, the application-visible output events. -/
inductive BroadcastEvent where
  | subscribed (p : PeerId) (t : Topic)
  | unsubscribed (p : PeerId) (t : Topic)
  | received (p : PeerId) (t : Topic) (m : Payload)
deriving DecidableEq, Repr

/-- The two `NetworkBehaviourAction` variants the code enqueues:
`NotifyHandler \x7b peer_id, event, .. \x7d` and `GenerateEvent`. -/
inductive Action where
  | notifyHandler (p : PeerId) (m : Message)
  | generateEvent (e : BroadcastEvent)
deriving DecidableEq, Repr

/-- `FnvHashSet::insert`: no-op when present, else add the element. -/
def setInsert (s : List Nat) (x : Nat) : List Nat :=
  if x ∈ s then s else s ++ [x]

/-- `FnvHashSet::remove`: drop the element. -/
def setRemove (s : List Nat) (x : Nat) : List Nat :=
  s.filter (fun y => decide (y ≠ x))

/-- `FnvHashMap::get`: value at a key, if present. -/
def mlookup (m : List (Nat × List Nat)) (k : Nat) : Option (List Nat) :=
  match m with
  | [] => none
  | kv :: rest => if k = kv.1 then some kv.2 else mlookup rest k

/-- `FnvHashMap::insert`: overwrite the value at an existing key, else add
the binding. -/
def minsert (m : List (Nat × List Nat)) (k : Nat) (v : List Nat) :
    List (Nat × List Nat) :=
  match m with
  | [] => [(k, v)]
  | kv :: rest => if kv.1 = k then (k, v) :: rest else kv :: minsert rest k v

/-- `FnvHashMap::remove`: drop the binding at a key. -/
def mremove (m : List (Nat × List Nat)) (k : Nat) : List (Nat × List Nat) :=
  m.filter (fun kv => decide (kv.1 ≠ k))

/-- `FnvHashMap::get_mut` followed by an in-place update of the value:
identity when the key is absent. -/
def mupdate (m : List (Nat × List Nat)) (k : Nat) (f : List Nat → List Nat) :
    List (Nat × List Nat) :=
  m.map (fun kv => if kv.1 = k then (kv.1, f kv.2) else kv)

/-- `map.entry(k).or_default()` followed by inserting `x` into the entry set:
creates the empty set at `k` when absent, then set-inserts `x`. -/
def mentryInsert (m : List (Nat × List Nat)) (k : Nat) (x : Nat) :
    List (Nat × List Nat) :=
  match m with
  | [] => [(k, setInsert [] x)]
  | kv :: rest =>
    if kv.1 = k then (k, setInsert kv.2 x) :: rest
    else kv :: mentryInsert rest k x

/-- The `Broadcast` behaviour state (the opaque `config` is irrelevant to
every operation modelled here and is omitted). -/
structure Broadcast where
  subscriptions : List Topic
  peers : List (PeerId × List Topic)
  topics : List (Topic × List PeerId)
  events : List Action
deriving DecidableEq, Repr

/-- `Broadcast::default()` / `Broadcast::new`: everything empty. -/
def Broadcast.empty : Broadcast := ⟨[], [], [], []⟩

/-- `Broadcast::subscribe`: insert into `subscriptions`, then push one
`NotifyHandler` with `Message::Subscribe(topic)` per key of `peers`. -/
def Broadcast.subscribe (b : Broadcast) (t : Topic) : Broadcast :=
  { b with
    subscriptions := setInsert b.subscriptions t
    events := b.events ++
      b.peers.map (fun pr => Action.notifyHandler pr.1 (Message.subscribe t)) }

/-- `Broadcast::unsubscribe`: remove from `subscriptions`, then push one
`NotifyHandler` with `Message::Unsubscribe(topic)` per peer in
`topics.get(topic)`, if that entry exists. -/
def Broadcast.unsubscribe (b : Broadcast) (t : Topic) : Broadcast :=
  { b with
    subscriptions := setRemove b.subscriptions t
    events := b.events ++
      (match mlookup b.topics t with
        | none => []
        | some ps =>
          ps.map (fun p => Action.notifyHandler p (Message.unsubscribe t))) }

/-- `Broadcast::broadcast`: push one `NotifyHandler` with
`Message::Broadcast(topic, msg)` per peer in `topics.get(topic)`, the same
payload handle cloned into each entry; no other field is touched. -/
def Broadcast.broadcast (b : Broadcast) (t : Topic) (m : Payload) : Broadcast :=
  { b with
    events := b.events ++
      (match mlookup b.topics t with
        | none => []
        | some ps =>
          ps.map (fun p => Action.notifyHandler p (Message.broadcast t m))) }

/-- `Broadcast::inject_connected`: `peers.insert(peer, default())` (an
overwrite when the key exists), then push `NotifyHandler` with
`Message::Subscribe(topic)` to the new peer for every local subscription. -/
def Broadcast.injectConnected (b : Broadcast) (p : PeerId) : Broadcast :=
  { b with
    peers := minsert b.peers p []
    events := b.events ++
      b.subscriptions.map (fun t => Action.notifyHandler p (Message.subscribe t)) }

/-- `Broadcast::inject_disconnected`: remove the peer's entry; for each topic
it held, remove the peer from that topic's peer set when present.  Nothing is
enqueued. -/
def Broadcast.injectDisconnected (b : Broadcast) (p : PeerId) : Broadcast :=
  match mlookup b.peers p with
  | none => b
  | some ts =>
    { b with
      peers := mremove b.peers p
      topics := ts.foldl (fun acc t => mupdate acc t (fun ps => setRemove ps p)) b.topics }

/-- `Broadcast::on_connection_handler_event`.  The `Rx(Subscribe)` and
`Rx(Unsubscribe)` arms call `self.peers.get_mut(&peer).unwrap()`, which
panics when the peer has no entry: the embedding returns `none` there.
`Rx(Broadcast)` and `Tx` never touch `peers`. -/
def Broadcast.onConnectionHandlerEvent (b : Broadcast) (p : PeerId)
    (e : HandlerEvent) : Option Broadcast :=
  match e with
  | HandlerEvent.rx (Message.subscribe t) =>
    match mlookup b.peers p with
    | none => none
    | some _ =>
      some { b with
        topics := mentryInsert b.topics t p
        peers := mupdate b.peers p (fun ts => setInsert ts t)
        events := b.events ++
          [Action.generateEvent (BroadcastEvent.subscribed p t)] }
  | HandlerEvent.rx (Message.unsubscribe t) =>
    match mlookup b.peers p with
    | none => none
    | some _ =>
      some { b with
        peers := mupdate b.peers p (fun ts => setRemove ts t)
        topics := mupdate b.topics t (fun ps => setRemove ps p)
        events := b.events ++
          [Action.generateEvent (BroadcastEvent.unsubscribed p t)] }
  | HandlerEvent.rx (Message.broadcast t m) =>
    some { b with
      events := b.events ++
        [Action.generateEvent (BroadcastEvent.received p t m)] }
  | HandlerEvent.tx => some b

/-- The `FromSwarm` events `on_swarm_event` matches on.  The real enum has
further variants (`AddressChange`, `DialFailure`, ...) that the code handles
with a wildcard no-op arm; they are collapsed into `otherEvent`. -/
inductive FromSwarm where
  | connectionEstablished (p : PeerId) (otherEstablished : Nat)
  | connectionClosed (p : PeerId) (remainingEstablished : Nat)
  | otherEvent
deriving DecidableEq, Repr

/-- `Broadcast::on_swarm_event`: dispatch to the lifecycle hooks only on the
0-to-1 connection edges. -/
def Broadcast.onSwarmEvent (b : Broadcast) (e : FromSwarm) : Broadcast :=
  match e with
  | FromSwarm.connectionEstablished p other =>
    if other = 0 then b.injectConnected p else b
  | FromSwarm.connectionClosed p rem =>
    if rem = 0 then b.injectDisconnected p else b
  | FromSwarm.otherEvent => b

/-- A `FromSwarm` event that is not a 0-to-1 connection edge. -/
def FromSwarm.nonEdge : FromSwarm → Prop
  | FromSwarm.connectionEstablished _ other => other ≠ 0
  | FromSwarm.connectionClosed _ rem => rem ≠ 0
  | FromSwarm.otherEvent => True

/-- Membership of `x` in the set a map holds at key `k` (`x ∈ m[k]`, false
when the key is absent). -/
def inVal (m : List (Nat × List Nat)) (k x : Nat) : Prop :=
  x ∈ (mlookup m k).getD []

instance (m : List (Nat × List Nat)) (k x : Nat) : Decidable (inVal m k x) := by
  unfold inVal; infer_instance

/-- Invariant I1, index symmetry: `t ∈ peers[p]` iff `p ∈ topics[t]`. -/
def IndexSym (b : Broadcast) : Prop :=
  ∀ p t, inVal b.peers p t ↔ inVal b.topics t p

/-- One step of the claim C1 trace language, taken literally: local calls and
both lifecycle hooks are unrestricted, and `on_connection_handler_event` is
only invoked for peers currently present in `peers`. -/
inductive StepL : Broadcast → Broadcast → Prop where
  | subscribe (b : Broadcast) (t : Topic) : StepL b (b.subscribe t)
  | unsubscribe (b : Broadcast) (t : Topic) : StepL b (b.unsubscribe t)
  | broadcast (b : Broadcast) (t : Topic) (m : Payload) : StepL b (b.broadcast t m)
  | connect (b : Broadcast) (p : PeerId) : StepL b (b.injectConnected p)
  | disconnect (b : Broadcast) (p : PeerId) : StepL b (b.injectDisconnected p)
  | handler (b : Broadcast) (p : PeerId) (e : HandlerEvent) (b' : Broadcast)
      (hp : mlookup b.peers p ≠ none)
      (hb : b.onConnectionHandlerEvent p e = some b') : StepL b b'

/-- States reachable from the empty state by `StepL` steps. -/
inductive ReachableL : Broadcast → Prop where
  | empty : ReachableL Broadcast.empty
  | step {b b' : Broadcast} : ReachableL b → StepL b b' → ReachableL b'

/-- One step under the full host contract: as `StepL`, but `inject_connected`
fires only on the 0-to-1 edge, i.e. only for peers not currently present in
`peers`. -/
inductive StepA : Broadcast → Broadcast → Prop where
  | subscribe (b : Broadcast) (t : Topic) : StepA b (b.subscribe t)
  | unsubscribe (b : Broadcast) (t : Topic) : StepA b (b.unsubscribe t)
  | broadcast (b : Broadcast) (t : Topic) (m : Payload) : StepA b (b.broadcast t m)
  | connect (b : Broadcast) (p : PeerId) (hp : mlookup b.peers p = none) :
      StepA b (b.injectConnected p)
  | disconnect (b : Broadcast) (p : PeerId) : StepA b (b.injectDisconnected p)
  | handler (b : Broadcast) (p : PeerId) (e : HandlerEvent) (b' : Broadcast)
      (hp : mlookup b.peers p ≠ none)
      (hb : b.onConnectionHandlerEvent p e = some b') : StepA b b'

/-- States reachable from the empty state by `StepA` steps. -/
inductive ReachableA : Broadcast → Prop where
  | empty : ReachableA Broadcast.empty
  | step {b b' : Broadcast} : ReachableA b → StepA b b' → ReachableA b'

/-- Occurrences of an action in a queue segment. -/
def countAct (a : Action) (l : List Action) : Nat :=
  (l.filter (fun x => decide (x = a))).length

/-- Occurrences of a value in a set/list of `Nat`. -/
def countNat (x : Nat) (l : List Nat) : Nat :=
  (l.filter (fun y => decide (y = x))).length

theorem mem_setInsert {s : List Nat} {x y : Nat} :
    y ∈ setInsert s x ↔ y = x ∨ y ∈ s := by
  unfold setInsert
  split
  · constructor
    · exact fun h => Or.inr h
    · rintro (rfl | h) <;> assumption
  · simp [List.mem_append, or_comm]

theorem mem_setInsert_self (s : List Nat) (x : Nat) : x ∈ setInsert s x :=
  mem_setInsert.mpr (Or.inl rfl)

theorem setInsert_of_mem {s : List Nat} {x : Nat} (h : x ∈ s) :
    setInsert s x = s := by
  unfold setInsert; simp [h]

theorem mem_setRemove {s : List Nat} {x y : Nat} :
    y ∈ setRemove s x ↔ y ∈ s ∧ y ≠ x := by
  unfold setRemove
  simp [List.mem_filter]

theorem setRemove_idem (s : List Nat) (x : Nat) :
    setRemove (setRemove s x) x = setRemove s x := by
  unfold setRemove
  rw [List.filter_filter]
  congr 1
  funext y
  by_cases h : y = x <;> simp [h]

theorem mlookup_cons (kv : Nat × List Nat) (rest : List (Nat × List Nat))
    (k : Nat) :
    mlookup (kv :: rest) k = if k = kv.1 then some kv.2 else mlookup rest k :=
  rfl

theorem minsert_cons (kv : Nat × List Nat) (rest : List (Nat × List Nat))
    (k : Nat) (v : List Nat) :
    minsert (kv :: rest) k v =
      if kv.1 = k then (k, v) :: rest else kv :: minsert rest k v :=
  rfl

theorem mremove_cons (kv : Nat × List Nat) (rest : List (Nat × List Nat))
    (k : Nat) :
    mremove (kv :: rest) k =
      if kv.1 = k then mremove rest k else kv :: mremove rest k := by
  by_cases h : kv.1 = k <;> simp [mremove, List.filter_cons, h]

theorem mupdate_cons (kv : Nat × List Nat) (rest : List (Nat × List Nat))
    (k : Nat) (f : List Nat → List Nat) :
    mupdate (kv :: rest) k f =
      (if kv.1 = k then (kv.1, f kv.2) else kv) :: mupdate rest k f :=
  rfl

theorem mentryInsert_cons (kv : Nat × List Nat) (rest : List (Nat × List Nat))
    (k x : Nat) :
    mentryInsert (kv :: rest) k x =
      if kv.1 = k then (k, setInsert kv.2 x) :: rest
      else kv :: mentryInsert rest k x :=
  rfl

theorem mlookup_minsert (m : List (Nat × List Nat)) (k : Nat) (v : List Nat)
    (k' : Nat) :
    mlookup (minsert m k v) k' = if k' = k then some v else mlookup m k' := by
  induction m with
  | nil => by_cases h' : k' = k <;> simp [minsert, mlookup, h']
  | cons kv rest ih =>
    rw [minsert_cons]
    by_cases h : kv.1 = k
    · rw [if_pos h]
      by_cases h' : k' = k
      · simp [mlookup_cons, h']
      · have h2 : ¬ k' = kv.1 := by rw [h]; exact h'
        simp [mlookup_cons, h', h2]
    · rw [if_neg h, mlookup_cons, mlookup_cons, ih]
      by_cases h' : k' = kv.1
      · have h2 : ¬ k' = k := by rw [h']; exact h
        simp [mlookup_cons, h, h', h2]
      · simp [mlookup_cons, h, h']

theorem mlookup_mremove (m : List (Nat × List Nat)) (k k' : Nat) :
    mlookup (mremove m k) k' = if k' = k then none else mlookup m k' := by
  induction m with
  | nil => simp [mremove, mlookup]
  | cons kv rest ih =>
    rw [mremove_cons]
    by_cases h : kv.1 = k
    · rw [if_pos h, ih, mlookup_cons]
      by_cases h' : k' = k
      · simp [h']
      · have h2 : ¬ k' = kv.1 := by rw [h]; exact h'
        simp [h', h2]
    · rw [if_neg h, mlookup_cons, mlookup_cons, ih]
      by_cases h' : k' = kv.1
      · have h2 : ¬ k' = k := by rw [h']; exact h
        simp [mlookup_cons, h, h', h2]
      · simp [mlookup_cons, h, h']

theorem mlookup_mupdate (m : List (Nat × List Nat)) (k : Nat)
    (f : List Nat → List Nat) (k' : Nat) :
    mlookup (mupdate m k f) k' =
      if k' = k then (mlookup m k).map f else mlookup m k' := by
  induction m with
  | nil => simp [mupdate, mlookup]
  | cons kv rest ih =>
    rw [mupdate_cons]
    by_cases h : kv.1 = k
    · rw [if_pos h, mlookup_cons, mlookup_cons]
      by_cases h' : k' = kv.1
      · have h2 : k' = k := by rw [h']; exact h
        simp [mlookup_cons, h, h', h2]
      · have h2 : ¬ k' = k := by rw [← h]; exact h'
        simp [mlookup_cons, h, h', h2, ih]
    · rw [if_neg h, mlookup_cons, mlookup_cons, ih]
      by_cases h' : k' = kv.1
      · have h2 : ¬ k' = k := by rw [h']; exact h
        simp [mlookup_cons, h, h', h2]
      · by_cases hkk : k' = k
        · have h3 : ¬ k = kv.1 := by rw [← hkk]; exact h'
          simp [mlookup_cons, h, h', hkk, h3]
        · simp [mlookup_cons, h, h', hkk]

theorem mlookup_mentryInsert (m : List (Nat × List Nat)) (k x k' : Nat) :
    mlookup (mentryInsert m k x) k' =
      if k' = k then some (setInsert ((mlookup m k).getD []) x)
      else mlookup m k' := by
  induction m with
  | nil =>
    rw [show mentryInsert [] k x = [(k, setInsert [] x)] from rfl, mlookup_cons]
    by_cases h' : k' = k <;> simp [mlookup, h']
  | cons kv rest ih =>
    rw [mentryInsert_cons]
    by_cases h : kv.1 = k
    · rw [if_pos h, mlookup_cons, mlookup_cons]
      by_cases h' : k' = k
      · subst h'
        rw [← h]
        simp
      · have h2 : ¬ k' = kv.1 := by rw [h]; exact h'
        simp [mlookup_cons, h, h', h2]
    · rw [if_neg h, mlookup_cons, mlookup_cons, ih]
      by_cases h' : k' = kv.1
      · have h2 : ¬ k' = k := by rw [h']; exact h
        simp [mlookup_cons, h, h', h2]
      · by_cases hkk : k' = k
        · have h3 : ¬ k = kv.1 := by rw [← hkk]; exact h'
          simp [mlookup_cons, h, h', hkk, h3]
        · simp [mlookup_cons, h, h', hkk]

theorem mlookup_foldRemove (ts : List Nat) (p : Nat)
    (m : List (Nat × List Nat)) (t' : Nat) :
    mlookup (ts.foldl (fun acc t => mupdate acc t (fun ps => setRemove ps p)) m) t' =
      if t' ∈ ts then (mlookup m t').map (fun ps => setRemove ps p)
      else mlookup m t' := by
  induction ts generalizing m with
  | nil => simp
  | cons t0 rest ih =>
    simp only [List.foldl_cons]
    rw [ih, mlookup_mupdate]
    by_cases h0 : t' = t0
    · subst h0
      by_cases hr : t' ∈ rest
      · simp only [hr, if_pos, if_true, List.mem_cons, true_or]
        cases mlookup m t' with
        | none => simp
        | some s => simp [setRemove_idem]
      · simp [hr, List.mem_cons]
    · by_cases hr : t' ∈ rest
      · simp [hr, h0, List.mem_cons]
      · simp [hr, h0, List.mem_cons]

theorem injectDisconnected_peers_lookup (b : Broadcast) (p q : PeerId) :
    mlookup (b.injectDisconnected p).peers q =
      if q = p then none else mlookup b.peers q := by
  unfold Broadcast.injectDisconnected
  cases hpe : mlookup b.peers p with
  | none =>
    by_cases hq : q = p
    · subst hq; simp [hpe]
    · simp [hq]
  | some ts =>
    simp only
    rw [mlookup_mremove]

theorem injectDisconnected_topics_lookup (b : Broadcast) (p : PeerId)
    (t : Topic) :
    mlookup (b.injectDisconnected p).topics t =
      if inVal b.peers p t then
        (mlookup b.topics t).map (fun ps => setRemove ps p)
      else mlookup b.topics t := by
  unfold Broadcast.injectDisconnected
  cases hpe : mlookup b.peers p with
  | none =>
    have : ¬ inVal b.peers p t := by simp [inVal, hpe]
    simp [this]
  | some ts =>
    have : inVal b.peers p t ↔ t ∈ ts := by simp [inVal, hpe]
    simp only
    rw [mlookup_foldRemove]
    by_cases ht : t ∈ ts
    · simp [ht, this.mpr ht]
    · have hni : ¬ inVal b.peers p t := fun hc => ht (this.mp hc)
      simp [ht, hni]

theorem injectDisconnected_events (b : Broadcast) (p : PeerId) :
    (b.injectDisconnected p).events = b.events := by
  unfold Broadcast.injectDisconnected
  cases mlookup b.peers p <;> rfl

theorem injectDisconnected_subscriptions (b : Broadcast) (p : PeerId) :
    (b.injectDisconnected p).subscriptions = b.subscriptions := by
  unfold Broadcast.injectDisconnected
  cases mlookup b.peers p <;> rfl

theorem indexSym_subscribe {b : Broadcast} (h : IndexSym b) (t : Topic) :
    IndexSym (b.subscribe t) :=
  h

theorem indexSym_unsubscribe {b : Broadcast} (h : IndexSym b) (t : Topic) :
    IndexSym (b.unsubscribe t) :=
  h

theorem indexSym_broadcast {b : Broadcast} (h : IndexSym b) (t : Topic)
    (m : Payload) : IndexSym (b.broadcast t m) :=
  h

theorem indexSym_injectConnected {b : Broadcast} (h : IndexSym b) {p : PeerId}
    (hp : mlookup b.peers p = none) : IndexSym (b.injectConnected p) := by
  intro q t
  show t ∈ (mlookup (minsert b.peers p []) q).getD [] ↔
    q ∈ (mlookup b.topics t).getD []
  rw [mlookup_minsert]
  by_cases hq : q = p
  · subst hq
    rw [if_pos rfl]
    constructor
    · intro hc
      simp at hc
    · intro hc
      exact absurd ((h q t).mpr hc) (by rw [inVal, hp]; simp)
  · rw [if_neg hq]
    exact h q t

theorem indexSym_injectDisconnected {b : Broadcast} (h : IndexSym b)
    (p : PeerId) : IndexSym (b.injectDisconnected p) := by
  intro q t
  unfold inVal
  rw [injectDisconnected_peers_lookup, injectDisconnected_topics_lookup]
  by_cases hq : q = p
  · subst hq
    rw [if_pos rfl]
    constructor
    · intro hc
      simp at hc
    · intro hc
      exfalso
      by_cases hin : inVal b.peers q t
      · rw [if_pos hin] at hc
        cases hmt : mlookup b.topics t with
        | none => rw [hmt] at hc; simp at hc
        | some s =>
          rw [hmt] at hc
          simp only [Option.map_some', Option.getD_some] at hc
          exact (mem_setRemove.mp hc).2 rfl
      · rw [if_neg hin] at hc
        exact hin ((h q t).mpr hc)
  · rw [if_neg hq]
    by_cases hin : inVal b.peers p t
    · rw [if_pos hin]
      cases hmt : mlookup b.topics t with
      | none =>
        have h2 := h q t
        rw [inVal, inVal, hmt] at h2
        simpa using h2
      | some s =>
        have h2 := h q t
        rw [inVal, inVal, hmt] at h2
        simp only [Option.getD_some] at h2
        simp only [Option.map_some', Option.getD_some]
        rw [mem_setRemove]
        constructor
        · exact fun hm => ⟨h2.mp hm, hq⟩
        · exact fun hm => h2.mpr hm.1
    · rw [if_neg hin]
      exact h q t

theorem indexSym_rxSubscribe {b b' : Broadcast} (h : IndexSym b) {p : PeerId}
    {t : Topic}
    (hb : b.onConnectionHandlerEvent p (HandlerEvent.rx (Message.subscribe t)) = some b') :
    IndexSym b' := by
  unfold Broadcast.onConnectionHandlerEvent at hb
  cases hpe : mlookup b.peers p with
  | none => rw [hpe] at hb; exact absurd hb (by simp)
  | some ts =>
    rw [hpe] at hb
    simp only [Option.some.injEq] at hb
    subst hb
    intro q t'
    show t' ∈ (mlookup (mupdate b.peers p (fun ts => setInsert ts t)) q).getD [] ↔
      q ∈ (mlookup (mentryInsert b.topics t p) t').getD []
    rw [mlookup_mupdate, mlookup_mentryInsert]
    have h2 := h q t'
    rw [inVal, inVal] at h2
    by_cases hq : q = p
    · subst hq
      rw [if_pos rfl, hpe]
      simp only [Option.map_some', Option.getD_some]
      by_cases ht : t' = t
      · subst ht
        rw [if_pos rfl]
        simp only [Option.getD_some]
        constructor
        · intro _
          exact mem_setInsert_self _ _
        · intro _
          exact mem_setInsert_self _ _
      · rw [if_neg ht, mem_setInsert]
        rw [hpe] at h2
        simp only [Option.getD_some] at h2
        constructor
        · rintro (hc | hc)
          · exact absurd hc ht
          · exact h2.mp hc
        · intro hc
          exact Or.inr (h2.mpr hc)
    · rw [if_neg hq]
      by_cases ht : t' = t
      · subst ht
        rw [if_pos rfl]
        simp only [Option.getD_some]
        rw [mem_setInsert]
        constructor
        · intro hc
          exact Or.inr (h2.mp hc)
        · rintro (hc | hc)
          · exact absurd hc hq
          · exact h2.mpr hc
      · rw [if_neg ht]
        exact h2

theorem indexSym_rxUnsubscribe {b b' : Broadcast} (h : IndexSym b) {p : PeerId}
    {t : Topic}
    (hb : b.onConnectionHandlerEvent p (HandlerEvent.rx (Message.unsubscribe t)) = some b') :
    IndexSym b' := by
  unfold Broadcast.onConnectionHandlerEvent at hb
  cases hpe : mlookup b.peers p with
  | none => rw [hpe] at hb; exact absurd hb (by simp)
  | some ts =>
    rw [hpe] at hb
    simp only [Option.some.injEq] at hb
    subst hb
    intro q t'
    show t' ∈ (mlookup (mupdate b.peers p (fun ts => setRemove ts t)) q).getD [] ↔
      q ∈ (mlookup (mupdate b.topics t (fun ps => setRemove ps p)) t').getD []
    rw [mlookup_mupdate, mlookup_mupdate]
    have h2 := h q t'
    rw [inVal, inVal] at h2
    by_cases hq : q = p
    · subst hq
      rw [if_pos rfl, hpe]
      simp only [Option.map_some', Option.getD_some]
      by_cases ht : t' = t
      · subst ht
        rw [if_pos rfl, mem_setRemove]
        cases hmt : mlookup b.topics t' with
        | none => simp
        | some s =>
          simp only [Option.map_some', Option.getD_some]
          rw [mem_setRemove]
          constructor
          · intro hc
            exact absurd rfl hc.2
          · intro hc
            exact absurd rfl hc.2
      · rw [if_neg ht, mem_setRemove]
        rw [hpe] at h2
        simp only [Option.getD_some] at h2
        constructor
        · intro hc
          exact h2.mp hc.1
        · intro hc
          exact ⟨h2.mpr hc, ht⟩
    · rw [if_neg hq]
      by_cases ht : t' = t
      · subst ht
        rw [if_pos rfl]
        cases hmt : mlookup b.topics t' with
        | none =>
          rw [hmt] at h2
          simpa using h2
        | some s =>
          rw [hmt] at h2
          simp only [Option.getD_some] at h2
          simp only [Option.map_some', Option.getD_some]
          rw [mem_setRemove]
          constructor
          · intro hc
            exact ⟨h2.mp hc, hq⟩
          · intro hc
            exact h2.mpr hc.1
      · rw [if_neg ht]
        exact h2

theorem indexSym_rxBroadcast {b b' : Broadcast} (h : IndexSym b) {p : PeerId}
    {t : Topic} {m : Payload}
    (hb : b.onConnectionHandlerEvent p (HandlerEvent.rx (Message.broadcast t m)) = some b') :
    IndexSym b' := by
  unfold Broadcast.onConnectionHandlerEvent at hb
  simp only [Option.some.injEq] at hb
  subst hb
  exact h

theorem indexSym_tx {b b' : Broadcast} (h : IndexSym b) {p : PeerId}
    (hb : b.onConnectionHandlerEvent p HandlerEvent.tx = some b') :
    IndexSym b' := by
  unfold Broadcast.onConnectionHandlerEvent at hb
  simp only [Option.some.injEq] at hb
  subst hb
  exact h

theorem stepA_indexSym {b b' : Broadcast} (h : IndexSym b) (hs : StepA b b') :
    IndexSym b' := by
  cases hs with
  | subscribe t => exact indexSym_subscribe h t
  | unsubscribe t => exact indexSym_unsubscribe h t
  | broadcast t m => exact indexSym_broadcast h t m
  | connect p hp => exact indexSym_injectConnected h hp
  | disconnect p => exact indexSym_injectDisconnected h p
  | handler p e b2 hp hb =>
    cases e with
    | rx msg =>
      cases msg with
      | subscribe t => exact indexSym_rxSubscribe h hb
      | unsubscribe t => exact indexSym_rxUnsubscribe h hb
      | broadcast t m => exact indexSym_rxBroadcast h hb
    | tx => exact indexSym_tx h hb

theorem indexSym_empty : IndexSym Broadcast.empty := by
  intro p t
  simp [inVal, Broadcast.empty, mlookup]

theorem countNat_eq_zero_of_not_mem {l : List Nat} {x : Nat} (hx : x ∉ l) :
    countNat x l = 0 := by
  induction l with
  | nil => rfl
  | cons a rest ih =>
    have hxa : ¬ a = x := fun hc => hx (by rw [← hc]; exact List.mem_cons_self a rest)
    have hxr : x ∉ rest := fun hc => hx (List.mem_cons_of_mem a hc)
    unfold countNat at *
    rw [List.filter_cons]
    simp [hxa, ih hxr]

theorem countNat_eq_one_of_nodup {l : List Nat} {x : Nat} (hn : l.Nodup)
    (hx : x ∈ l) : countNat x l = 1 := by
  induction l with
  | nil => cases hx
  | cons a rest ih =>
    rw [List.nodup_cons] at hn
    unfold countNat at *
    rw [List.filter_cons]
    by_cases hxa : a = x
    · subst hxa
      have hnr : a ∉ rest := hn.1
      have h0 := countNat_eq_zero_of_not_mem hnr
      unfold countNat at h0
      simp [h0]
    · have hxr : x ∈ rest := by
        cases List.mem_cons.mp hx with
        | inl h => exact absurd h.symm hxa
        | inr h => exact h
      simp [hxa, ih hn.2 hxr]

theorem countAct_notify_map_keys (p : PeerId) (msg : Message)
    (l : List (PeerId × List Topic)) :
    countAct (Action.notifyHandler p msg)
      (l.map (fun pr => Action.notifyHandler pr.1 msg)) =
    countNat p (l.map Prod.fst) := by
  induction l with
  | nil => rfl
  | cons kv rest ih =>
    unfold countAct countNat at *
    simp only [List.map_cons, List.filter_cons]
    by_cases hp : kv.1 = p
    · simp [hp, ih]
    · simp [hp, ih]

theorem countAct_notify_map_elems (p : PeerId) (msg : Message) (l : List Nat) :
    countAct (Action.notifyHandler p msg)
      (l.map (fun q => Action.notifyHandler q msg)) =
    countNat p l := by
  induction l with
  | nil => rfl
  | cons a rest ih =>
    unfold countAct countNat at *
    simp only [List.map_cons, List.filter_cons]
    by_cases hp : a = p
    · simp [hp, ih]
    · simp [hp, ih]

theorem countAct_notify_map_topics (p : PeerId) (l : List Topic) (mk : Topic → Message)
    (hmk : Function.Injective mk) (t : Topic) :
    countAct (Action.notifyHandler p (mk t))
      (l.map (fun u => Action.notifyHandler p (mk u))) =
    countNat t l := by
  induction l with
  | nil => rfl
  | cons a rest ih =>
    unfold countAct countNat at *
    simp only [List.map_cons, List.filter_cons]
    by_cases hp : a = t
    · simp [hp, ih]
    · have : ¬ mk a = mk t := fun hc => hp (hmk hc)
      simp [hp, this, ih]

/-- C1: taken literally — with `on_connection_handler_event` restricted to
connected peers but `inject_connected` unrestricted — index symmetry is NOT
an invariant: connect peer 0, receive `Subscribe(0)` from it, then deliver a
second `inject_connected(0)`; the `peers.insert(peer, default())` overwrite
empties `peers[0]` while `topics[0]` still contains peer 0. -/
theorem c1_counterexample :
    ReachableL ⟨[], [(0, [])], [(0, [0])],
      [Action.generateEvent (BroadcastEvent.subscribed 0 0)]⟩ ∧
    ¬ IndexSym ⟨[], [(0, [])], [(0, [0])],
      [Action.generateEvent (BroadcastEvent.subscribed 0 0)]⟩ := by
  constructor
  · have s1 : StepL Broadcast.empty (Broadcast.empty.injectConnected 0) :=
      StepL.connect Broadcast.empty 0
    have s2 : StepL (Broadcast.empty.injectConnected 0)
        ⟨[], [(0, [0])], [(0, [0])],
          [Action.generateEvent (BroadcastEvent.subscribed 0 0)]⟩ :=
      StepL.handler (Broadcast.empty.injectConnected 0) 0
        (HandlerEvent.rx (Message.subscribe 0)) _ (by decide) rfl
    have s3 : StepL
        (⟨[], [(0, [0])], [(0, [0])],
          [Action.generateEvent (BroadcastEvent.subscribed 0 0)]⟩ : Broadcast)
        ⟨[], [(0, [])], [(0, [0])],
          [Action.generateEvent (BroadcastEvent.subscribed 0 0)]⟩ :=
      StepL.connect _ 0
    exact ReachableL.step (ReachableL.step (ReachableL.step ReachableL.empty s1) s2) s3
  · intro h
    exact absurd ((h 0 0).mpr (by decide)) (by decide)

/-- C1 (amended): in every state reachable from the empty `Broadcast` state
by subscribe, unsubscribe, broadcast, inject_connected, inject_disconnected
and on_connection_handler_event calls, where — per the host contract —
`on_connection_handler_event` is delivered only for peers currently present
in `peers` AND `inject_connected` only for peers not currently present in
`peers` (the 0-to-1 edge), index symmetry holds: for every peer `p` and
topic `t`, `t ∈ peers[p]` iff `p ∈ topics[t]`. -/
theorem c1_index_symmetry (b : Broadcast) (h : ReachableA b) : IndexSym b := by
  induction h with
  | empty => exact indexSym_empty
  | step hr hs ih => exact stepA_indexSym ih hs

theorem c1_index_symmetry_witness :
    ReachableA ⟨[], [(0, [0])], [(0, [0])],
      [Action.generateEvent (BroadcastEvent.subscribed 0 0)]⟩ ∧
    IndexSym ⟨[], [(0, [0])], [(0, [0])],
      [Action.generateEvent (BroadcastEvent.subscribed 0 0)]⟩ := by
  have hr : ReachableA ⟨[], [(0, [0])], [(0, [0])],
      [Action.generateEvent (BroadcastEvent.subscribed 0 0)]⟩ :=
    ReachableA.step
      (ReachableA.step ReachableA.empty (StepA.connect Broadcast.empty 0 (by decide)))
      (StepA.handler (Broadcast.empty.injectConnected 0) 0
        (HandlerEvent.rx (Message.subscribe 0)) _ (by decide) rfl)
  exact ⟨hr, c1_index_symmetry _ hr⟩

/-- C2: the claim is false on the code — receiving `Subscribe(t)` from a
peer absent from `peers` takes the `unwrap` panic branch, not a silent
no-op: witnessed at the empty state with peer 0 and topic 0. -/
theorem c2_counterexample :
    mlookup Broadcast.empty.peers 0 = none ∧
    Broadcast.empty.onConnectionHandlerEvent 0
      (HandlerEvent.rx (Message.subscribe 0)) = none := by
  exact ⟨rfl, rfl⟩

/-- C2 (amended): for every state and every peer `p` not present as a key in
`peers`, processing a received `Subscribe(t)` or `Unsubscribe(t)` from `p`
takes the `peers.get_mut(&peer).unwrap()` panic branch (modelled as `none`)
rather than completing as a no-op; only `Broadcast` payloads and `Tx`
acknowledgements from such a peer complete without error. -/
theorem c2_unknown_peer_panics (b : Broadcast) (p : PeerId) (t : Topic)
    (m : Payload) (hp : mlookup b.peers p = none) :
    b.onConnectionHandlerEvent p (HandlerEvent.rx (Message.subscribe t)) = none ∧
    b.onConnectionHandlerEvent p (HandlerEvent.rx (Message.unsubscribe t)) = none ∧
    (b.onConnectionHandlerEvent p (HandlerEvent.rx (Message.broadcast t m))).isSome ∧
    (b.onConnectionHandlerEvent p HandlerEvent.tx).isSome := by
  refine ⟨?_, ?_, ?_, ?_⟩
  · unfold Broadcast.onConnectionHandlerEvent
    rw [hp]
  · unfold Broadcast.onConnectionHandlerEvent
    rw [hp]
  · rfl
  · rfl

theorem c2_unknown_peer_panics_witness :
    mlookup Broadcast.empty.peers 0 = none ∧
    (Broadcast.empty.onConnectionHandlerEvent 0
      (HandlerEvent.rx (Message.subscribe 0)) = none ∧
    Broadcast.empty.onConnectionHandlerEvent 0
      (HandlerEvent.rx (Message.unsubscribe 0)) = none ∧
    (Broadcast.empty.onConnectionHandlerEvent 0
      (HandlerEvent.rx (Message.broadcast 0 0))).isSome ∧
    (Broadcast.empty.onConnectionHandlerEvent 0 HandlerEvent.tx).isSome) :=
  ⟨rfl, c2_unknown_peer_panics Broadcast.empty 0 0 0 rfl⟩

/-- C3: `subscribe(t)` inserts `t` into local subscriptions idempotently
(calling it twice in a row yields the same subscriptions as once), appends
exactly one `NotifyHandler(p, Subscribe(t))` per key `p` of `peers` —
regardless of whether `p` is already recorded as subscribed to `t`, with no
deduplication across calls (the double call appends the per-peer block
twice) — and appends no application-visible `GenerateEvent` entry. -/
theorem c3_subscribe (b : Broadcast) (t : Topic)
    (hnd : (b.peers.map Prod.fst).Nodup) :
    t ∈ (b.subscribe t).subscriptions ∧
    ((b.subscribe t).subscribe t).subscriptions = (b.subscribe t).subscriptions ∧
    (b.subscribe t).events = b.events ++
      b.peers.map (fun pr => Action.notifyHandler pr.1 (Message.subscribe t)) ∧
    ((b.subscribe t).subscribe t).events = b.events ++
      b.peers.map (fun pr => Action.notifyHandler pr.1 (Message.subscribe t)) ++
      b.peers.map (fun pr => Action.notifyHandler pr.1 (Message.subscribe t)) ∧
    (∀ p, p ∈ b.peers.map Prod.fst →
      countAct (Action.notifyHandler p (Message.subscribe t))
        (b.peers.map (fun pr => Action.notifyHandler pr.1 (Message.subscribe t))) = 1) ∧
    (∀ ev, Action.generateEvent ev ∉
      b.peers.map (fun pr => Action.notifyHandler pr.1 (Message.subscribe t))) := by
  refine ⟨mem_setInsert_self _ _, ?_, rfl, rfl, ?_, ?_⟩
  · show setInsert (setInsert b.subscriptions t) t = setInsert b.subscriptions t
    exact setInsert_of_mem (mem_setInsert_self _ _)
  · intro p hp
    rw [countAct_notify_map_keys]
    exact countNat_eq_one_of_nodup hnd hp
  · intro ev
    simp [List.mem_map]

theorem c3_subscribe_witness :
    (([(5, [7]), (6, ([] : List Topic))].map Prod.fst).Nodup) ∧
    (7 ∈ ((⟨[], [(5, [7]), (6, [])], [(7, [5])], []⟩ : Broadcast).subscribe 7).subscriptions ∧
    (((⟨[], [(5, [7]), (6, [])], [(7, [5])], []⟩ : Broadcast).subscribe 7).subscribe 7).subscriptions =
      ((⟨[], [(5, [7]), (6, [])], [(7, [5])], []⟩ : Broadcast).subscribe 7).subscriptions ∧
    ((⟨[], [(5, [7]), (6, [])], [(7, [5])], []⟩ : Broadcast).subscribe 7).events =
      (⟨[], [(5, [7]), (6, [])], [(7, [5])], []⟩ : Broadcast).events ++
      [(5, [7]), (6, ([] : List Topic))].map
        (fun pr => Action.notifyHandler pr.1 (Message.subscribe 7)) ∧
    (((⟨[], [(5, [7]), (6, [])], [(7, [5])], []⟩ : Broadcast).subscribe 7).subscribe 7).events =
      (⟨[], [(5, [7]), (6, [])], [(7, [5])], []⟩ : Broadcast).events ++
      [(5, [7]), (6, ([] : List Topic))].map
        (fun pr => Action.notifyHandler pr.1 (Message.subscribe 7)) ++
      [(5, [7]), (6, ([] : List Topic))].map
        (fun pr => Action.notifyHandler pr.1 (Message.subscribe 7)) ∧
    (∀ p, p ∈ [(5, [7]), (6, ([] : List Topic))].map Prod.fst →
      countAct (Action.notifyHandler p (Message.subscribe 7))
        ([(5, [7]), (6, ([] : List Topic))].map
          (fun pr => Action.notifyHandler pr.1 (Message.subscribe 7))) = 1) ∧
    (∀ ev, Action.generateEvent ev ∉
      [(5, [7]), (6, ([] : List Topic))].map
        (fun pr => Action.notifyHandler pr.1 (Message.subscribe 7)))) :=
  ⟨by decide, c3_subscribe ⟨[], [(5, [7]), (6, [])], [(7, [5])], []⟩ 7 (by decide)⟩

/-- C4: `unsubscribe(t)` removes `t` from local subscriptions idempotently
and appends `NotifyHandler(p, Unsubscribe(t))` exactly for the peers `p`
recorded in `topics[t]` (nothing when the entry is absent), not for all
connected peers — while `subscribe(t)` notifies every key of `peers`: the
asymmetry holds for every state. -/
theorem c4_unsubscribe (b : Broadcast) (t : Topic) :
    t ∉ (b.unsubscribe t).subscriptions ∧
    ((b.unsubscribe t).unsubscribe t).subscriptions = (b.unsubscribe t).subscriptions ∧
    (b.unsubscribe t).events = b.events ++
      ((mlookup b.topics t).getD []).map
        (fun p => Action.notifyHandler p (Message.unsubscribe t)) ∧
    (b.subscribe t).events = b.events ++
      b.peers.map (fun pr => Action.notifyHandler pr.1 (Message.subscribe t)) := by
  refine ⟨?_, ?_, ?_, rfl⟩
  · intro hc
    exact (mem_setRemove.mp hc).2 rfl
  · show setRemove (setRemove b.subscriptions t) t = setRemove b.subscriptions t
    exact setRemove_idem _ _
  · show b.events ++ _ = b.events ++ _
    cases h : mlookup b.topics t <;> simp [h]

/-- C5: `broadcast(t, m)` leaves subscriptions, peers and topics unchanged,
and appends exactly one `NotifyHandler(p, Broadcast(t, m))` per element `p`
of `topics[t]`, every appended entry carrying the identical payload handle
`m`; when the entry is absent or its peer set empty, nothing is appended and
no error arises. -/
theorem c5_broadcast (b : Broadcast) (t : Topic) (m : Payload)
    (hnd : ((mlookup b.topics t).getD []).Nodup) :
    (b.broadcast t m).subscriptions = b.subscriptions ∧
    (b.broadcast t m).peers = b.peers ∧
    (b.broadcast t m).topics = b.topics ∧
    (b.broadcast t m).events = b.events ++
      ((mlookup b.topics t).getD []).map
        (fun p => Action.notifyHandler p (Message.broadcast t m)) ∧
    (∀ p, p ∈ (mlookup b.topics t).getD [] →
      countAct (Action.notifyHandler p (Message.broadcast t m))
        (((mlookup b.topics t).getD []).map
          (fun p => Action.notifyHandler p (Message.broadcast t m))) = 1) ∧
    (∀ a, a ∈ ((mlookup b.topics t).getD []).map
        (fun p => Action.notifyHandler p (Message.broadcast t m)) →
      ∃ p, a = Action.notifyHandler p (Message.broadcast t m)) ∧
    (mlookup b.topics t = none → (b.broadcast t m).events = b.events) ∧
    (mlookup b.topics t = some [] → (b.broadcast t m).events = b.events) := by
  refine ⟨rfl, rfl, rfl, ?_, ?_, ?_, ?_, ?_⟩
  · show b.events ++ _ = b.events ++ _
    cases h : mlookup b.topics t <;> simp [h]
  · intro p hp
    rw [countAct_notify_map_elems]
    exact countNat_eq_one_of_nodup hnd hp
  · intro a ha
    rcases List.mem_map.mp ha with ⟨p, _, rfl⟩
    exact ⟨p, rfl⟩
  · intro h
    show b.events ++ _ = b.events
    rw [h]
    simp
  · intro h
    show b.events ++ _ = b.events
    rw [h]
    simp

theorem c5_broadcast_witness :
    ((mlookup (⟨[], [(1, [4]), (2, [4])], [(4, [1, 2])], []⟩ : Broadcast).topics 4).getD []).Nodup ∧
    ((⟨[], [(1, [4]), (2, [4])], [(4, [1, 2])], []⟩ : Broadcast).broadcast 4 9).events =
      (⟨[], [(1, [4]), (2, [4])], [(4, [1, 2])], []⟩ : Broadcast).events ++
      ((mlookup (⟨[], [(1, [4]), (2, [4])], [(4, [1, 2])], []⟩ : Broadcast).topics 4).getD []).map
        (fun p => Action.notifyHandler p (Message.broadcast 4 9)) :=
  ⟨by decide,
    (c5_broadcast ⟨[], [(1, [4]), (2, [4])], [(4, [1, 2])], []⟩ 4 9 (by decide)).2.2.2.1⟩

/-- C6: receiving `Broadcast(t, m)` from a connected peer `p` mutates no
index field — subscriptions, peers and topics are unchanged — and appends
exactly one `GenerateEvent(Received(p, t, m))`, unconditionally (not gated
on this node being subscribed to `t`), and never any `NotifyHandler` entry
to any peer. -/
theorem c6_rx_broadcast (b : Broadcast) (p : PeerId) (t : Topic) (m : Payload)
    (_hp : mlookup b.peers p ≠ none) :
    ∃ b', b.onConnectionHandlerEvent p (HandlerEvent.rx (Message.broadcast t m)) = some b' ∧
      b'.subscriptions = b.subscriptions ∧
      b'.peers = b.peers ∧
      b'.topics = b.topics ∧
      b'.events = b.events ++ [Action.generateEvent (BroadcastEvent.received p t m)] ∧
      (∀ q msg, Action.notifyHandler q msg ∉
        [Action.generateEvent (BroadcastEvent.received p t m)]) := by
  refine ⟨_, rfl, rfl, rfl, rfl, rfl, ?_⟩
  intro q msg hmem
  simp at hmem

theorem c6_rx_broadcast_witness :
    mlookup (⟨[], [(3, [])], [], []⟩ : Broadcast).peers 3 ≠ none ∧
    (∃ b', (⟨[], [(3, [])], [], []⟩ : Broadcast).onConnectionHandlerEvent 3
        (HandlerEvent.rx (Message.broadcast 2 9)) = some b' ∧
      b'.subscriptions = (⟨[], [(3, [])], [], []⟩ : Broadcast).subscriptions ∧
      b'.peers = (⟨[], [(3, [])], [], []⟩ : Broadcast).peers ∧
      b'.topics = (⟨[], [(3, [])], [], []⟩ : Broadcast).topics ∧
      b'.events = (⟨[], [(3, [])], [], []⟩ : Broadcast).events ++
        [Action.generateEvent (BroadcastEvent.received 3 2 9)] ∧
      (∀ q msg, Action.notifyHandler q msg ∉
        [Action.generateEvent (BroadcastEvent.received 3 2 9)])) :=
  ⟨by decide, c6_rx_broadcast ⟨[], [(3, [])], [], []⟩ 3 2 9 (by decide)⟩

/-- C7: from a connected peer `p`, a received `Subscribe(t)` appends exactly
one `GenerateEvent(Subscribed(p, t))` and a received `Unsubscribe(t)`
appends exactly one `GenerateEvent(Unsubscribed(p, t))`, in both cases even
when the index is left unchanged — duplicate announcements are not
suppressed and a missing index entry is not an error. -/
theorem c7_rx_subscribe_unsubscribe_events (b : Broadcast) (p : PeerId)
    (t : Topic) (hp : mlookup b.peers p ≠ none) :
    (∃ b', b.onConnectionHandlerEvent p (HandlerEvent.rx (Message.subscribe t)) = some b' ∧
      b'.events = b.events ++ [Action.generateEvent (BroadcastEvent.subscribed p t)]) ∧
    (∃ b', b.onConnectionHandlerEvent p (HandlerEvent.rx (Message.unsubscribe t)) = some b' ∧
      b'.events = b.events ++ [Action.generateEvent (BroadcastEvent.unsubscribed p t)]) := by
  cases hpe : mlookup b.peers p with
  | none => exact absurd hpe hp
  | some ts =>
    constructor
    · refine ⟨{ b with
          topics := mentryInsert b.topics t p
          peers := mupdate b.peers p (fun ts => setInsert ts t)
          events := b.events ++
            [Action.generateEvent (BroadcastEvent.subscribed p t)] }, ?_, rfl⟩
      unfold Broadcast.onConnectionHandlerEvent
      rw [hpe]
    · refine ⟨{ b with
          peers := mupdate b.peers p (fun ts => setRemove ts t)
          topics := mupdate b.topics t (fun ps => setRemove ps p)
          events := b.events ++
            [Action.generateEvent (BroadcastEvent.unsubscribed p t)] }, ?_, rfl⟩
      unfold Broadcast.onConnectionHandlerEvent
      rw [hpe]

theorem c7_rx_subscribe_unsubscribe_events_witness :
    mlookup (⟨[], [(3, [2])], [(2, [3])], []⟩ : Broadcast).peers 3 ≠ none ∧
    ((∃ b', (⟨[], [(3, [2])], [(2, [3])], []⟩ : Broadcast).onConnectionHandlerEvent 3
        (HandlerEvent.rx (Message.subscribe 2)) = some b' ∧
      b'.events = (⟨[], [(3, [2])], [(2, [3])], []⟩ : Broadcast).events ++
        [Action.generateEvent (BroadcastEvent.subscribed 3 2)]) ∧
    (∃ b', (⟨[], [(3, [2])], [(2, [3])], []⟩ : Broadcast).onConnectionHandlerEvent 3
        (HandlerEvent.rx (Message.unsubscribe 2)) = some b' ∧
      b'.events = (⟨[], [(3, [2])], [(2, [3])], []⟩ : Broadcast).events ++
        [Action.generateEvent (BroadcastEvent.unsubscribed 3 2)])) :=
  ⟨by decide, c7_rx_subscribe_unsubscribe_events ⟨[], [(3, [2])], [(2, [3])], []⟩ 3 2 (by decide)⟩

/-- C8: in any state satisfying index symmetry, `inject_disconnected(p)`
removes the key `p` from `peers` and `p` from every peer set in `topics`,
appends nothing to the outbound queue (neither `NotifyHandler` nor
`GenerateEvent`), and leaves local subscriptions unchanged. -/
theorem c8_disconnect_cleans (b : Broadcast) (p : PeerId) (hsym : IndexSym b) :
    mlookup (b.injectDisconnected p).peers p = none ∧
    (∀ t, ¬ inVal (b.injectDisconnected p).topics t p) ∧
    (b.injectDisconnected p).events = b.events ∧
    (b.injectDisconnected p).subscriptions = b.subscriptions := by
  refine ⟨?_, ?_, injectDisconnected_events b p, injectDisconnected_subscriptions b p⟩
  · rw [injectDisconnected_peers_lookup]
    simp
  · intro t hc
    have h2 := ((indexSym_injectDisconnected hsym p) p t).mpr hc
    rw [inVal, injectDisconnected_peers_lookup] at h2
    simp at h2

theorem c8_disconnect_cleans_witness :
    IndexSym ⟨[], [(1, [2])], [(2, [1])], []⟩ ∧
    (mlookup ((⟨[], [(1, [2])], [(2, [1])], []⟩ : Broadcast).injectDisconnected 1).peers 1 = none ∧
    (∀ t, ¬ inVal ((⟨[], [(1, [2])], [(2, [1])], []⟩ : Broadcast).injectDisconnected 1).topics t 1) ∧
    ((⟨[], [(1, [2])], [(2, [1])], []⟩ : Broadcast).injectDisconnected 1).events =
      (⟨[], [(1, [2])], [(2, [1])], []⟩ : Broadcast).events ∧
    ((⟨[], [(1, [2])], [(2, [1])], []⟩ : Broadcast).injectDisconnected 1).subscriptions =
      (⟨[], [(1, [2])], [(2, [1])], []⟩ : Broadcast).subscriptions) := by
  have hsym : IndexSym ⟨[], [(1, [2])], [(2, [1])], []⟩ := by
    intro q t
    show t ∈ (mlookup [(1, [2])] q).getD [] ↔ q ∈ (mlookup [(2, [1])] t).getD []
    by_cases hq : q = 1 <;> by_cases ht : t = 2 <;>
      simp [mlookup, hq, ht]
  exact ⟨hsym, c8_disconnect_cleans ⟨[], [(1, [2])], [(2, [1])], []⟩ 1 hsym⟩

/-- C9: false as stated — `inject_connected` runs `peers.insert(peer,
default())`, a `HashMap` overwrite, so an existing entry is NOT left intact:
with peer 0 recorded as subscribed to topic 1, a further
`inject_connected(0)` resets the entry to the empty set. -/
theorem c9_counterexample :
    mlookup (⟨[], [(0, [1])], [(1, [0])], []⟩ : Broadcast).peers 0 = some [1] ∧
    mlookup ((⟨[], [(0, [1])], [(1, [0])], []⟩ : Broadcast).injectConnected 0).peers 0 =
      some [] :=
  ⟨rfl, rfl⟩

/-- C9 (amended): `inject_connected(p)` sets `peers[p]` to the empty set
unconditionally — creating the entry when absent but overwriting any
recorded topics when `p` is already a key — leaves every other peer's entry
unchanged, and appends exactly one `NotifyHandler(p, Subscribe(t))` for
every topic `t` in local subscriptions. -/
theorem c9_inject_connected (b : Broadcast) (p : PeerId)
    (hnd : b.subscriptions.Nodup) :
    mlookup (b.injectConnected p).peers p = some [] ∧
    (∀ q, q ≠ p → mlookup (b.injectConnected p).peers q = mlookup b.peers q) ∧
    (b.injectConnected p).events = b.events ++
      b.subscriptions.map (fun t => Action.notifyHandler p (Message.subscribe t)) ∧
    (∀ t, t ∈ b.subscriptions →
      countAct (Action.notifyHandler p (Message.subscribe t))
        (b.subscriptions.map (fun u => Action.notifyHandler p (Message.subscribe u))) = 1) := by
  refine ⟨?_, ?_, rfl, ?_⟩
  · show mlookup (minsert b.peers p []) p = some []
    rw [mlookup_minsert]
    simp
  · intro q hq
    show mlookup (minsert b.peers p []) q = mlookup b.peers q
    rw [mlookup_minsert]
    simp [hq]
  · intro t ht
    rw [countAct_notify_map_topics p b.subscriptions Message.subscribe
      (fun _ _ hA => Message.subscribe.inj hA) t]
    exact countNat_eq_one_of_nodup hnd ht

theorem c9_inject_connected_witness :
    ([3, 4] : List Topic).Nodup ∧
    (mlookup ((⟨[3, 4], [(0, [1])], [], []⟩ : Broadcast).injectConnected 0).peers 0 = some [] ∧
    (∀ q, q ≠ 0 → mlookup ((⟨[3, 4], [(0, [1])], [], []⟩ : Broadcast).injectConnected 0).peers q =
      mlookup (⟨[3, 4], [(0, [1])], [], []⟩ : Broadcast).peers q) ∧
    ((⟨[3, 4], [(0, [1])], [], []⟩ : Broadcast).injectConnected 0).events =
      (⟨[3, 4], [(0, [1])], [], []⟩ : Broadcast).events ++
      ([3, 4] : List Topic).map (fun t => Action.notifyHandler 0 (Message.subscribe t)) ∧
    (∀ t, t ∈ ([3, 4] : List Topic) →
      countAct (Action.notifyHandler 0 (Message.subscribe t))
        (([3, 4] : List Topic).map
          (fun u => Action.notifyHandler 0 (Message.subscribe u))) = 1)) :=
  ⟨by decide, c9_inject_connected ⟨[3, 4], [(0, [1])], [], []⟩ 0 (by decide)⟩

/-- C10: a swarm event that is not a 0-to-1 connection edge — a
`ConnectionEstablished` with `other_established > 0`, a `ConnectionClosed`
with `remaining_established > 0`, or any other `FromSwarm` variant — leaves
the entire component state (subscriptions, peers, topics and the outbound
queue) exactly as before. -/
theorem c10_non_edge_noop (b : Broadcast) (e : FromSwarm) (h : e.nonEdge) :
    b.onSwarmEvent e = b := by
  cases e with
  | connectionEstablished p other =>
    show (if other = 0 then b.injectConnected p else b) = b
    rw [if_neg h]
  | connectionClosed p rem =>
    show (if rem = 0 then b.injectDisconnected p else b) = b
    rw [if_neg h]
  | otherEvent => rfl

theorem c10_non_edge_noop_witness :
    (FromSwarm.connectionEstablished 7 1).nonEdge ∧
    (⟨[2], [(7, [])], [(2, [7])], []⟩ : Broadcast).onSwarmEvent
      (FromSwarm.connectionEstablished 7 1) = ⟨[2], [(7, [])], [(2, [7])], []⟩ ∧
    (⟨[2], [(7, [])], [(2, [7])], []⟩ : Broadcast).onSwarmEvent
      (FromSwarm.connectionClosed 7 2) = ⟨[2], [(7, [])], [(2, [7])], []⟩ ∧
    (⟨[2], [(7, [])], [(2, [7])], []⟩ : Broadcast).onSwarmEvent
      FromSwarm.otherEvent = ⟨[2], [(7, [])], [(2, [7])], []⟩ :=
  ⟨Nat.one_ne_zero,
    c10_non_edge_noop ⟨[2], [(7, [])], [(2, [7])], []⟩
      (FromSwarm.connectionEstablished 7 1) Nat.one_ne_zero,
    c10_non_edge_noop ⟨[2], [(7, [])], [(2, [7])], []⟩
      (FromSwarm.connectionClosed 7 2) (by intro hc; cases hc),
    c10_non_edge_noop ⟨[2], [(7, [])], [(2, [7])], []⟩
      FromSwarm.otherEvent trivial⟩

end BroadcastSpec
